import Mathlib

/-!
Verification of the Hebbian classifier in `hebbian.py`.

The source is a single-class numpy program.  We embed it shallowly:

* numeric values are rationals (`ℚ`), which represent all the dyadic
  float values appearing in the program and its spec exactly;
* a 1-d numpy array is a `List ℚ`; a 2-d array is a `List (List ℚ)`
  whose rows all have the same length;
* the weight attribute `w_` is a `List ℚ` whose head is the bias
  `w_[0]` and whose tail is `w_[1:]`;
* numpy failures (`IndexError` on `X.shape[1]` for an empty input,
  `ValueError` for a ragged input) are modelled by `fit` returning
  `none`; a successful call returns `some` result.
-/

namespace Hebb

/-- `np.dot` on two 1-d arrays: sum of the element-wise products.
The source only applies it to arrays of equal length. -/
def npDot (x w : List ℚ) : ℚ :=
  (List.zipWith (fun a b => a * b) x w).sum

/-- `net_input`: `np.dot(X, self.w_[1:]) + self.w_[0]` for a single
sample `x`; `w.headI` is the bias `w_[0]`, `w.tail` is `w_[1:]`. -/
def net_input (w x : List ℚ) : ℚ :=
  npDot x w.tail + w.headI

/-- `net_input` on a 2-d input: `np.dot(X, self.w_[1:])` is the vector
of row-wise dot products and the bias addition broadcasts, so the
result is the row-wise `net_input`. -/
def net_input_batch (w : List ℚ) (X : List (List ℚ)) : List ℚ :=
  X.map (net_input w)

/-- `predict`: `np.where(self.net_input(X) >= 80.0, 1, -1)` on a
single sample. -/
def predict (w x : List ℚ) : ℚ :=
  if net_input w x ≥ 80 then 1 else -1

/-- `predict` on a 2-d input (element-wise `np.where`). -/
def predict_batch (w : List ℚ) (X : List (List ℚ)) : List ℚ :=
  X.map (predict w)

/-- One weight update of the inner loop of `fit`:
`hebb_update = self.eta * self.predict(xi)`;
`self.w_[1:] += hebb_update * xi`; `self.w_[0] += hebb_update`. -/
def hebbStep (eta : ℚ) (w xi : List ℚ) : List ℚ :=
  let hebb_update := eta * predict w xi
  (w.headI + hebb_update) ::
    List.zipWith (fun wj xj => wj + hebb_update * xj) w.tail xi

/-- The inner loop of `fit` over `zip(X, y)`, threading the weight
vector and the epoch error counter
(`errors += int(hebb_update != 0.0)`). -/
def hebbEpoch (eta : ℚ) : List ℚ → ℕ → List (List ℚ × ℚ) → List ℚ × ℕ
  | w, errors, [] => (w, errors)
  | w, errors, (xi, _target) :: rest =>
      hebbEpoch eta (hebbStep eta w xi)
        (errors + if eta * predict w xi ≠ 0 then 1 else 0) rest

/-- The outer loop of `fit`: `for _ in range(self.n_iter)`, running one
epoch and appending its error counter to `errors_`. -/
def fitLoop (eta : ℚ) (pairs : List (List ℚ × ℚ)) :
    ℕ → List ℚ → List ℕ → List ℚ × List ℕ
  | 0, w, errs => (w, errs)
  | n + 1, w, errs =>
      let r := hebbEpoch eta w 0 pairs
      fitLoop eta pairs n r.1 (errs ++ [r.2])

/-- Constructor arguments of the `Hebbian` class. -/
structure Hebbian where
  eta : ℚ
  n_iter : ℕ
deriving DecidableEq, Repr

/-- The attributes `w_` and `errors_` left by a completed `fit` call. -/
structure FitResult where
  w_ : List ℚ
  errors_ : List ℕ
deriving DecidableEq, Repr

/-- `fit(X, y)`.  `X.shape[1]` fails with an `IndexError` when `X` is
empty (its numpy shape is `(0,)`), and a ragged `X` cannot be built as
a 2-d float array (`ValueError`); both are modelled as `none`.
Otherwise `w_` starts as `np.zeros(1 + X.shape[1])`, `errors_` as `[]`,
and the two loops run over `zip(X, y)` (which, like Python `zip`,
truncates to the shorter argument). -/
def fit (m : Hebbian) (X : List (List ℚ)) (y : List ℚ) : Option FitResult :=
  match X with
  | [] => none
  | x0 :: rest =>
      if rest.all fun xi => xi.length = x0.length then
        let r := fitLoop m.eta ((x0 :: rest).zip y) m.n_iter
          (List.replicate (1 + x0.length) 0) []
        some ⟨r.1, r.2⟩
      else none

/-- The externally visible state of one classifier instance: `w_` and
`errors_` are `none` while the attributes do not exist yet (before the
first `fit`), so that calling `net_input`/`predict` in that state is
the `AttributeError` of the source, modelled as `none`. -/
structure HebbianState where
  eta : ℚ
  n_iter : ℕ
  w_ : Option (List ℚ)
  errors_ : Option (List ℕ)
deriving DecidableEq, Repr

/-- `Hebbian.__init__`: no `w_`/`errors_` attributes yet. -/
def HebbianState.init (eta : ℚ) (n_iter : ℕ) : HebbianState :=
  ⟨eta, n_iter, none, none⟩

/-- `net_input` as a method: an `AttributeError` (`none`) when `w_`
does not exist. -/
def HebbianState.net_inputS (s : HebbianState) (x : List ℚ) : Option ℚ :=
  s.w_.map fun w => net_input w x

/-- `predict` as a method: an `AttributeError` (`none`) when `w_`
does not exist. -/
def HebbianState.predictS (s : HebbianState) (x : List ℚ) : Option ℚ :=
  s.w_.map fun w => predict w x

/-- `fit` as a method: on success the instance carries the new `w_`
and `errors_` attributes. -/
def HebbianState.fitS (s : HebbianState) (X : List (List ℚ)) (y : List ℚ) :
    Option HebbianState :=
  (fit ⟨s.eta, s.n_iter⟩ X y).map fun r =>
    { s with w_ := some r.w_, errors_ := some r.errors_ }

/-- One sample update as written in the spec (§4.1 fit behavior):
`output = predict(xi)`, `delta = eta * output`,
`w[1:] += delta * xi`, `w[0] += delta`, and the epoch error counter is
incremented exactly when `delta != 0.0`.  This definition follows the
spec text and is compared with the source embedding in the refinement
theorem for the fit behavior. -/
def specStep (eta : ℚ) (st : List ℚ × ℕ) (p : List ℚ × ℚ) : List ℚ × ℕ :=
  let output := predict st.1 p.1
  let delta := eta * output
  ((st.1.headI + delta) ::
      List.zipWith (fun wj xj => wj + delta * xj) st.1.tail p.1,
    if delta ≠ 0 then st.2 + 1 else st.2)

/-- One epoch as written in the spec: the error counter starts at 0 and
the `(xi, target)` pairs are consumed in the given order. -/
def specEpoch (eta : ℚ) (w : List ℚ) (pairs : List (List ℚ × ℚ)) :
    List ℚ × ℕ :=
  pairs.foldl (specStep eta) (w, 0)

/-- `fit` as written in the spec: `w` starts as a zero vector of length
`1 + n_features`, the error history starts empty, and each of the
`n_iter` epochs appends its error counter to the history. -/
def fitSpec (eta : ℚ) (n_iter : ℕ) (X : List (List ℚ)) (y : List ℚ)
    (n_features : ℕ) : List ℚ × List ℕ :=
  (List.range n_iter).foldl
    (fun st _ =>
      let r := specEpoch eta st.1 (X.zip y)
      (r.1, st.2 ++ [r.2]))
    (List.replicate (1 + n_features) 0, ([] : List ℕ))


theorem hebbEpoch_eq_foldl (eta : ℚ) (pairs : List (List ℚ × ℚ)) :
    ∀ (w : List ℚ) (e : ℕ),
      hebbEpoch eta w e pairs = pairs.foldl (specStep eta) (w, e) := by
  induction pairs with
  | nil => intro w e; rfl
  | cons p rest ih =>
      intro w e
      obtain ⟨xi, t⟩ := p
      have hstep : specStep eta (w, e) (xi, t) =
          (hebbStep eta w xi, e + if eta * predict w xi ≠ 0 then 1 else 0) := by
        simp only [specStep, hebbStep]
        refine Prod.ext rfl ?_
        split <;> omega
      simp only [hebbEpoch, List.foldl_cons, hstep, ih]

theorem fitLoop_succ (eta : ℚ) (pairs : List (List ℚ × ℚ)) :
    ∀ (n : ℕ) (w : List ℚ) (errs : List ℕ),
      fitLoop eta pairs (n + 1) w errs =
        ((hebbEpoch eta (fitLoop eta pairs n w errs).1 0 pairs).1,
         (fitLoop eta pairs n w errs).2 ++
           [(hebbEpoch eta (fitLoop eta pairs n w errs).1 0 pairs).2]) := by
  intro n
  induction n with
  | zero => intro w errs; rfl
  | succ n ih =>
      intro w errs
      rw [fitLoop, ih]
      rfl

theorem fitLoop_eq_foldl_range (eta : ℚ) (pairs : List (List ℚ × ℚ))
    (n : ℕ) (w : List ℚ) (errs : List ℕ) :
    fitLoop eta pairs n w errs =
      (List.range n).foldl
        (fun st _ =>
          let r := specEpoch eta st.1 pairs
          (r.1, st.2 ++ [r.2]))
        (w, errs) := by
  induction n with
  | zero => rfl
  | succ n ih =>
      rw [fitLoop_succ, List.range_succ, List.foldl_append, ← ih]
      simp only [List.foldl_cons, List.foldl_nil, specEpoch, hebbEpoch_eq_foldl]



theorem predict_ne_zero (w x : List ℚ) : predict w x ≠ 0 := by
  unfold predict
  split <;> norm_num

theorem hebbStep_length (eta : ℚ) (w xi : List ℚ) :
    (hebbStep eta w xi).length = 1 + min w.tail.length xi.length := by
  simp [hebbStep]
  omega

theorem hebbEpoch_w_length (eta : ℚ) (k : ℕ) (pairs : List (List ℚ × ℚ))
    (hp : ∀ p ∈ pairs, (p.1 : List ℚ).length = k) :
    ∀ (w : List ℚ) (e : ℕ), w.length = 1 + k →
      (hebbEpoch eta w e pairs).1.length = 1 + k := by
  induction pairs with
  | nil => intro w e hw; exact hw
  | cons p rest ih =>
      intro w e hw
      obtain ⟨xi, t⟩ := p
      have hxi : xi.length = k := hp (xi, t) (List.mem_cons_self _ _)
      have hrest : ∀ p ∈ rest, (p.1 : List ℚ).length = k :=
        fun p hmem => hp p (List.mem_cons_of_mem _ hmem)
      have hw' : (hebbStep eta w xi).length = 1 + k := by
        rw [hebbStep_length, List.length_tail, hw, hxi]
        simp
      simpa only [hebbEpoch] using
        (ih hrest) (hebbStep eta w xi) _ hw'

theorem fitLoop_w_length (eta : ℚ) (k : ℕ) (pairs : List (List ℚ × ℚ))
    (hp : ∀ p ∈ pairs, (p.1 : List ℚ).length = k) :
    ∀ (n : ℕ) (w : List ℚ) (errs : List ℕ), w.length = 1 + k →
      (fitLoop eta pairs n w errs).1.length = 1 + k := by
  intro n
  induction n with
  | zero => intro w errs hw; exact hw
  | succ n ih =>
      intro w errs hw
      rw [fitLoop]
      exact ih _ _ (hebbEpoch_w_length eta k pairs hp w 0 hw)

theorem fitLoop_errs_length (eta : ℚ) (pairs : List (List ℚ × ℚ)) :
    ∀ (n : ℕ) (w : List ℚ) (errs : List ℕ),
      (fitLoop eta pairs n w errs).2.length = errs.length + n := by
  intro n
  induction n with
  | zero => intro w errs; rfl
  | succ n ih =>
      intro w errs
      rw [fitLoop, ih]
      simp
      omega

theorem hebbEpoch_errors (eta : ℚ) (heta : eta ≠ 0)
    (pairs : List (List ℚ × ℚ)) :
    ∀ (w : List ℚ) (e : ℕ),
      (hebbEpoch eta w e pairs).2 = e + pairs.length := by
  induction pairs with
  | nil => intro w e; rfl
  | cons p rest ih =>
      intro w e
      obtain ⟨xi, t⟩ := p
      have hne : eta * predict w xi ≠ 0 := mul_ne_zero heta (predict_ne_zero w xi)
      simp only [hebbEpoch, if_pos hne, ih, List.length_cons]
      omega

theorem fitLoop_errs_replicate (eta : ℚ) (heta : eta ≠ 0)
    (pairs : List (List ℚ × ℚ)) :
    ∀ (n : ℕ) (w : List ℚ) (errs : List ℕ),
      (fitLoop eta pairs n w errs).2 =
        errs ++ List.replicate n pairs.length := by
  intro n
  induction n with
  | zero => intro w errs; simp [fitLoop]
  | succ n ih =>
      intro w errs
      rw [fitLoop, ih]
      rw [hebbEpoch_errors eta heta pairs _ 0]
      simp [List.replicate_succ]

theorem fitLoop_nil_pairs (eta : ℚ) :
    ∀ (n : ℕ) (w : List ℚ) (errs : List ℕ),
      fitLoop eta [] n w errs = (w, errs ++ List.replicate n 0) := by
  intro n
  induction n with
  | zero => intro w errs; simp [fitLoop]
  | succ n ih =>
      intro w errs
      rw [fitLoop]
      show fitLoop eta [] n w (errs ++ [0]) = _
      rw [ih]
      simp [List.replicate_succ]



theorem hebbEpoch_fst_only (eta : ℚ) :
    ∀ (p1 p2 : List (List ℚ × ℚ)), p1.map Prod.fst = p2.map Prod.fst →
      ∀ (w : List ℚ) (e : ℕ), hebbEpoch eta w e p1 = hebbEpoch eta w e p2 := by
  intro p1
  induction p1 with
  | nil =>
      intro p2 h w e
      obtain rfl : p2 = [] := by simpa [List.map_eq_nil_iff] using h.symm
      rfl
  | cons p rest ih =>
      intro p2 h w e
      cases p2 with
      | nil => simp at h
      | cons q rest2 =>
          simp only [List.map_cons, List.cons.injEq] at h
          obtain ⟨xi, t⟩ := p
          obtain ⟨xj, u⟩ := q
          obtain ⟨hfst, hmap⟩ := h
          simp only at hfst
          subst hfst
          simp only [hebbEpoch]
          exact ih rest2 hmap _ _

theorem fitLoop_fst_only (eta : ℚ) (p1 p2 : List (List ℚ × ℚ))
    (h : p1.map Prod.fst = p2.map Prod.fst) :
    ∀ (n : ℕ) (w : List ℚ) (errs : List ℕ),
      fitLoop eta p1 n w errs = fitLoop eta p2 n w errs := by
  intro n
  induction n with
  | zero => intro w errs; rfl
  | succ n ih =>
      intro w errs
      rw [fitLoop, fitLoop, hebbEpoch_fst_only eta p1 p2 h]
      exact ih _ _

theorem npDot_eq_sum :
    ∀ (x v : List ℚ), npDot x v =
      ∑ i in Finset.range (min x.length v.length), x.getD i 0 * v.getD i 0 := by
  intro x
  induction x with
  | nil => intro v; simp [npDot]
  | cons a x ih =>
      intro v
      cases v with
      | nil => simp [npDot]
      | cons b v =>
          simp only [npDot, List.zipWith_cons_cons, List.sum_cons,
            List.length_cons, Nat.succ_min_succ, Finset.sum_range_succ',
            List.getD_cons_succ, List.getD_cons_zero]
          rw [← npDot] at *
          rw [ih v]
          ring



/-- C2: for every weight vector and every input of matching feature
dimension, `predict` returns only `1` or `-1`: `1` when
`net_input ≥ 80`, `-1` when `net_input < 80`, and `1` when `net_input`
is exactly `80` (the comparison is inclusive). -/
theorem predict_step_threshold (w x : List ℚ) (h : x.length = w.length - 1) :
    (predict w x = 1 ∨ predict w x = -1) ∧
    (net_input w x ≥ 80 → predict w x = 1) ∧
    (net_input w x < 80 → predict w x = -1) ∧
    (net_input w x = 80 → predict w x = 1) := by
  refine ⟨?_, fun hge => if_pos hge, fun hlt => if_neg (not_le.mpr hlt),
    fun heq => if_pos (le_of_eq heq.symm)⟩
  unfold predict
  split
  · left; rfl
  · right; rfl

/-- C2 witness at `w = [1, 2, 3]`, `x = [40, 40]`. -/
theorem predict_step_threshold_witness :
    ([40, 40] : List ℚ).length = ([1, 2, 3] : List ℚ).length - 1 ∧
      ((predict [1, 2, 3] [40, 40] = 1 ∨ predict [1, 2, 3] [40, 40] = -1) ∧
       (net_input [1, 2, 3] [40, 40] ≥ 80 → predict [1, 2, 3] [40, 40] = 1) ∧
       (net_input [1, 2, 3] [40, 40] < 80 → predict [1, 2, 3] [40, 40] = -1) ∧
       (net_input [1, 2, 3] [40, 40] = 80 → predict [1, 2, 3] [40, 40] = 1)) :=
  ⟨by simp, predict_step_threshold [1, 2, 3] [40, 40] (by simp)⟩

/-- C3: `net_input` is the affine map: the dot product of the sample
with `w[1:]` plus the bias `w[0]`, for a single sample (as an index-wise
sum) and row-wise for a batch; on the batch `[[1, 1], [0, 0]]` with
`w = [1, 2, 3]` it returns `[6, 1]`. -/
theorem net_input_affine (w x : List ℚ) (h : x.length = w.length - 1) :
    net_input w x =
        (∑ i in Finset.range x.length, x.getD i 0 * w.tail.getD i 0) +
          w.headI ∧
    (∀ Xb : List (List ℚ), (∀ r ∈ Xb, r.length = w.length - 1) →
      net_input_batch w Xb =
        Xb.map fun r =>
          (∑ i in Finset.range r.length, r.getD i 0 * w.tail.getD i 0) +
            w.headI) ∧
    net_input_batch [1, 2, 3] [[1, 1], [0, 0]] = [6, 1] := by
  have key : ∀ z : List ℚ, z.length = w.length - 1 →
      net_input w z =
        (∑ i in Finset.range z.length, z.getD i 0 * w.tail.getD i 0) +
          w.headI := by
    intro z hz
    have hmin : min z.length w.tail.length = z.length := by
      rw [List.length_tail, hz]
      exact min_self _
    rw [net_input, npDot_eq_sum, hmin]
  refine ⟨key x h, fun Xb hXb => ?_, by norm_num [net_input_batch, net_input, npDot]⟩
  unfold net_input_batch
  exact List.map_congr_left fun r hr => key r (hXb r hr)

/-- C3 witness at `w = [1, 2, 3]`, `x = [1, 1]`. -/
theorem net_input_affine_witness :
    ([1, 1] : List ℚ).length = ([1, 2, 3] : List ℚ).length - 1 ∧
      net_input [1, 2, 3] [1, 1] =
        (∑ i in Finset.range ([1, 1] : List ℚ).length,
            ([1, 1] : List ℚ).getD i 0 * ([1, 2, 3] : List ℚ).tail.getD i 0) +
          ([1, 2, 3] : List ℚ).headI :=
  ⟨by simp, (net_input_affine [1, 2, 3] [1, 1] (by simp)).1⟩

/-- C4: the concrete single-sample scenario: with `eta = 1/2`,
`n_iter = 1`, `X = [[1, 2]]`, `y = [1]`, the zero-weight `predict` on
`[1, 2]` returns `-1`, and `fit` produces `w_ = [-1/2, -1/2, -1]` and
`errors_ = [1]`. -/
theorem fit_single_sample_scenario :
    predict [0, 0, 0] [1, 2] = -1 ∧
      fit ⟨1/2, 1⟩ [[1, 2]] [1] =
        some ⟨[-(1/2), -(1/2), -1], [1]⟩ := by
  constructor
  · norm_num [predict, net_input, npDot]
  · norm_num [fit, fitLoop, hebbEpoch, hebbStep, predict, net_input, npDot,
      List.replicate]



/-- C1: on every non-empty training set whose samples all have
`n_features` features, `fit` completes and its weight vector and error
history are exactly those described by the spec text (`fitSpec`):
zero-initialized weights of length `1 + n_features`, empty history,
then `n_iter` in-order epochs of `delta = eta * predict(xi)` updates
with the epoch counter appended after each epoch. -/
theorem fit_refines_fitSpec (m : Hebbian) (X : List (List ℚ)) (y : List ℚ)
    (n_features : ℕ) (hne : X ≠ [])
    (hlen : ∀ xi ∈ X, xi.length = n_features) :
    ∃ r : FitResult, fit m X y = some r ∧
      (r.w_, r.errors_) = fitSpec m.eta m.n_iter X y n_features := by
  obtain ⟨x0, rest, rfl⟩ := List.exists_cons_of_ne_nil hne
  have hx0 : x0.length = n_features := hlen x0 (List.mem_cons_self _ _)
  have hall : rest.all (fun xi => xi.length = x0.length) = true := by
    rw [List.all_eq_true]
    intro xi hmem
    simp only [decide_eq_true_eq]
    rw [hlen xi (List.mem_cons_of_mem _ hmem), hx0]
  refine ⟨_, by rw [fit, if_pos hall], ?_⟩
  simp only [fitSpec, ← hx0, fitLoop_eq_foldl_range]

/-- C1 witness at `eta = 1/2`, `n_iter = 1`, `X = [[1, 2]]`,
`y = [1]`. -/
theorem fit_refines_fitSpec_witness :
    ([[1, 2]] : List (List ℚ)) ≠ [] ∧
      (∀ xi ∈ ([[1, 2]] : List (List ℚ)), xi.length = 2) ∧
      ∃ r : FitResult, fit ⟨1/2, 1⟩ [[1, 2]] [1] = some r ∧
        (r.w_, r.errors_) = fitSpec (1/2) 1 [[1, 2]] [1] 2 :=
  ⟨by simp, by simp, fit_refines_fitSpec ⟨1/2, 1⟩ [[1, 2]] [1] 2 (by simp)
    (by simp)⟩

/-- C5: after every completed `fit` on a non-empty training set whose
samples all have `n_features` features, the weight vector has length
`1 + n_features` and the error history has length `n_iter`, for every
`eta` and `n_iter`. -/
theorem fit_result_lengths (m : Hebbian) (X : List (List ℚ)) (y : List ℚ)
    (n_features : ℕ) (hne : X ≠ [])
    (hlen : ∀ xi ∈ X, xi.length = n_features) :
    ∃ r : FitResult, fit m X y = some r ∧
      r.w_.length = 1 + n_features ∧ r.errors_.length = m.n_iter := by
  obtain ⟨x0, rest, rfl⟩ := List.exists_cons_of_ne_nil hne
  have hx0 : x0.length = n_features := hlen x0 (List.mem_cons_self _ _)
  have hall : rest.all (fun xi => xi.length = x0.length) = true := by
    rw [List.all_eq_true]
    intro xi hmem
    simp only [decide_eq_true_eq]
    rw [hlen xi (List.mem_cons_of_mem _ hmem), hx0]
  have hpairs : ∀ p ∈ (x0 :: rest).zip y, (p.1 : List ℚ).length = n_features :=
    fun p hmem => hlen p.1 (List.of_mem_zip hmem).1
  refine ⟨_, by rw [fit, if_pos hall], ?_, ?_⟩
  · exact fitLoop_w_length m.eta n_features _ hpairs m.n_iter _ []
      (by rw [List.length_replicate, hx0])
  · rw [fitLoop_errs_length]
    simp

/-- C5 witness at `eta = 1/2`, `n_iter = 3`, `X = [[1, 2]]`,
`y = [1]`. -/
theorem fit_result_lengths_witness :
    ([[1, 2]] : List (List ℚ)) ≠ [] ∧
      (∀ xi ∈ ([[1, 2]] : List (List ℚ)), xi.length = 2) ∧
      ∃ r : FitResult, fit ⟨1/2, 3⟩ [[1, 2]] [1] = some r ∧
        r.w_.length = 1 + 2 ∧ r.errors_.length = 3 :=
  ⟨by simp, by simp, fit_result_lengths ⟨1/2, 3⟩ [[1, 2]] [1] 2 (by simp)
    (by simp)⟩



/-- C6: the label values do not influence training: two `fit` calls on
the same `X` with any two label sequences of the same length as `X`
produce identical weight vectors and error histories, because the
update uses only the predicted output. -/
theorem fit_ignores_labels (m : Hebbian) (X : List (List ℚ))
    (y1 y2 : List ℚ) (h1 : y1.length = X.length) (h2 : y2.length = X.length) :
    fit m X y1 = fit m X y2 := by
  cases X with
  | nil => rfl
  | cons x0 rest =>
      rw [fit, fit]
      have hmap : ((x0 :: rest).zip y1).map Prod.fst =
          ((x0 :: rest).zip y2).map Prod.fst := by
        rw [List.map_fst_zip _ _ (le_of_eq h1.symm),
          List.map_fst_zip _ _ (le_of_eq h2.symm)]
      rw [fitLoop_fst_only m.eta _ _ hmap]

/-- C6 witness at `X = [[1, 2]]`, `y1 = [5]`, `y2 = [-7]`. -/
theorem fit_ignores_labels_witness :
    ([5] : List ℚ).length = ([[1, 2]] : List (List ℚ)).length ∧
      ([-7] : List ℚ).length = ([[1, 2]] : List (List ℚ)).length ∧
      fit ⟨1/2, 1⟩ [[1, 2]] [5] = fit ⟨1/2, 1⟩ [[1, 2]] [-7] :=
  ⟨rfl, rfl, fit_ignores_labels ⟨1/2, 1⟩ [[1, 2]] [5] [-7] rfl rfl⟩

/-- C7: when `eta ≠ 0` every epoch counts every sample as an error,
because `predict` only returns `1` or `-1` and so
`hebb_update = eta * predict(xi)` is never zero: on a valid `X`, `y`
of equal length `n` the error history is `n_iter` copies of `n`. -/
theorem fit_errors_all_samples (m : Hebbian) (X : List (List ℚ))
    (y : List ℚ) (heta : m.eta ≠ 0) (hne : X ≠ [])
    (hlen : ∀ xi ∈ X, xi.length = X.headI.length)
    (hy : y.length = X.length) :
    ∃ r : FitResult, fit m X y = some r ∧
      r.errors_ = List.replicate m.n_iter X.length := by
  obtain ⟨x0, rest, rfl⟩ := List.exists_cons_of_ne_nil hne
  have hall : rest.all (fun xi => xi.length = x0.length) = true := by
    rw [List.all_eq_true]
    intro xi hmem
    simp only [decide_eq_true_eq]
    exact hlen xi (List.mem_cons_of_mem _ hmem)
  refine ⟨_, by rw [fit, if_pos hall], ?_⟩
  rw [fitLoop_errs_replicate m.eta heta]
  rw [List.nil_append, List.length_zip, hy, min_self]

/-- C7 witness at `eta = 1/2`, `n_iter = 2`, `X = [[1, 2], [3, 4]]`,
`y = [1, -1]`. -/
theorem fit_errors_all_samples_witness :
    ((⟨1/2, 2⟩ : Hebbian).eta ≠ 0) ∧
      ([[1, 2], [3, 4]] : List (List ℚ)) ≠ [] ∧
      (∀ xi ∈ ([[1, 2], [3, 4]] : List (List ℚ)),
        xi.length = ([[1, 2], [3, 4]] : List (List ℚ)).headI.length) ∧
      ([1, -1] : List ℚ).length = ([[1, 2], [3, 4]] : List (List ℚ)).length ∧
      ∃ r : FitResult, fit ⟨1/2, 2⟩ [[1, 2], [3, 4]] [1, -1] = some r ∧
        r.errors_ = List.replicate 2 2 :=
  ⟨by norm_num, by simp, by simp, rfl,
    fit_errors_all_samples ⟨1/2, 2⟩ [[1, 2], [3, 4]] [1, -1] (by norm_num)
      (by simp) (by simp) rfl⟩

/-- C10: `fit` does not fail when `X` and `y` have different lengths;
`zip` silently truncates to the first `min (len X) (len y)` pairs per
epoch.  With a non-zero `eta` the error history records exactly that
many updates per epoch, and with an empty `y` the weights stay zero and
the error history is `n_iter` zeros. -/
theorem fit_truncates_to_zip (m : Hebbian) (X : List (List ℚ))
    (y : List ℚ) (hne : X ≠ [])
    (hlen : ∀ xi ∈ X, xi.length = X.headI.length) :
    (fit m X y).isSome = true ∧
      (y = [] → fit m X y =
        some ⟨List.replicate (1 + X.headI.length) 0,
          List.replicate m.n_iter 0⟩) ∧
      (m.eta ≠ 0 → ∃ r : FitResult, fit m X y = some r ∧
        r.errors_ = List.replicate m.n_iter (min X.length y.length)) := by
  obtain ⟨x0, rest, rfl⟩ := List.exists_cons_of_ne_nil hne
  have hall : rest.all (fun xi => xi.length = x0.length) = true := by
    rw [List.all_eq_true]
    intro xi hmem
    simp only [decide_eq_true_eq]
    exact hlen xi (List.mem_cons_of_mem _ hmem)
  refine ⟨by rw [fit, if_pos hall]; rfl, fun hy => ?_, fun heta => ?_⟩
  · subst hy
    rw [fit, if_pos hall]
    simp only [List.zip_nil_right, fitLoop_nil_pairs, List.nil_append,
      List.headI_cons]
  · refine ⟨_, by rw [fit, if_pos hall], ?_⟩
    rw [fitLoop_errs_replicate m.eta heta, List.nil_append, List.length_zip]

/-- C10 witness at `X = [[1, 2]]`, `y = []`. -/
theorem fit_truncates_to_zip_witness :
    ([[1, 2]] : List (List ℚ)) ≠ [] ∧
      (∀ xi ∈ ([[1, 2]] : List (List ℚ)),
        xi.length = ([[1, 2]] : List (List ℚ)).headI.length) ∧
      ((fit ⟨1/2, 2⟩ [[1, 2]] []).isSome = true ∧
        (([] : List ℚ) = [] → fit ⟨1/2, 2⟩ [[1, 2]] [] =
          some ⟨List.replicate (1 + ([[1, 2]] : List (List ℚ)).headI.length) 0,
            List.replicate 2 0⟩) ∧
        ((⟨1/2, 2⟩ : Hebbian).eta ≠ 0 →
          ∃ r : FitResult, fit ⟨1/2, 2⟩ [[1, 2]] [] = some r ∧
            r.errors_ = List.replicate 2
              (min ([[1, 2]] : List (List ℚ)).length ([] : List ℚ).length))) :=
  ⟨by simp, by simp, fit_truncates_to_zip ⟨1/2, 2⟩ [[1, 2]] [] (by simp)
    (by simp)⟩



/-- C8 counterexample: on the two-sample, zero-feature input
`X = [[], []]`, `y = [1, 1]` (all samples consistently of feature
length zero), `fit` does not fail: it completes with `w_ = [-1]` (two
bias updates of `-1/2`) and `errors_ = [2]`. -/
theorem fit_zero_features_completes :
    fit ⟨1/2, 1⟩ [[], []] [1, 1] = some ⟨[-1], [2]⟩ := by
  norm_num [fit, fitLoop, hebbEpoch, hebbStep, predict, net_input, npDot,
    List.replicate]

/-- C8 amended: `fit` fails exactly when `X` is empty or its samples
have inconsistent feature lengths; a consistent feature length of zero
is accepted and `fit` completes normally. -/
theorem fit_none_iff_empty_or_ragged (m : Hebbian) (X : List (List ℚ))
    (y : List ℚ) :
    fit m X y = none ↔
      (X = [] ∨ ∃ xi ∈ X, xi.length ≠ X.headI.length) := by
  cases X with
  | nil => simp [fit]
  | cons x0 rest =>
      rw [fit]
      split
      · rename_i hall
        rw [List.all_eq_true] at hall
        simp only [decide_eq_true_eq] at hall
        constructor
        · intro habs; exact absurd habs (by simp)
        · rintro (habs | ⟨xi, hmem, hxi⟩)
          · exact absurd habs (by simp)
          · rw [List.headI_cons] at hxi
            rcases List.mem_cons.mp hmem with rfl | hmem2
            · exact absurd rfl hxi
            · exact absurd (hall xi hmem2) hxi
      · rename_i hall
        refine iff_of_true rfl (Or.inr ?_)
        rw [List.all_eq_true] at hall
        push_neg at hall
        obtain ⟨xi, hmem, hxi⟩ := hall
        exact ⟨xi, List.mem_cons_of_mem _ hmem,
          by rw [List.headI_cons]; simpa using hxi⟩

/-- C9: while the instance is untrained (`w_` absent), `net_input` and
`predict` both fail immediately; after any completed `fit` call the
instance is trained and both succeed. -/
theorem untrained_errors_trained_succeeds (s : HebbianState) (x : List ℚ)
    (X : List (List ℚ)) (y : List ℚ) (s' : HebbianState) :
    (s.w_ = none → s.net_inputS x = none ∧ s.predictS x = none) ∧
      (s.fitS X y = some s' →
        s'.w_.isSome = true ∧ (s'.net_inputS x).isSome = true ∧
          (s'.predictS x).isSome = true) := by
  constructor
  · intro h
    simp [HebbianState.net_inputS, HebbianState.predictS, h]
  · intro h
    rw [HebbianState.fitS, Option.map_eq_some'] at h
    obtain ⟨r, hr, hs'⟩ := h
    subst hs'
    simp [HebbianState.net_inputS, HebbianState.predictS]

/-- C9 witness: a fresh instance with `eta = 1/2`, `n_iter = 1` fails
on `net_input`/`predict`, and the instance returned by a completed
`fit` on `X = [[1, 2]]`, `y = [1]` succeeds on both. -/
theorem untrained_errors_trained_succeeds_witness :
    ((HebbianState.init (1/2) 1).w_ = none ∧
        ((HebbianState.init (1/2) 1).net_inputS [1, 2] = none ∧
          (HebbianState.init (1/2) 1).predictS [1, 2] = none)) ∧
      ((HebbianState.init (1/2) 1).fitS [[1, 2]] [1] =
          some ⟨1/2, 1, some [-(1/2), -(1/2), -1], some [1]⟩ ∧
        ((⟨1/2, 1, some [-(1/2), -(1/2), -1],
              some [1]⟩ : HebbianState).w_.isSome = true ∧
          ((⟨1/2, 1, some [-(1/2), -(1/2), -1],
              some [1]⟩ : HebbianState).net_inputS [1, 2]).isSome = true ∧
          ((⟨1/2, 1, some [-(1/2), -(1/2), -1],
              some [1]⟩ : HebbianState).predictS [1, 2]).isSome = true)) := by
  have hfit : (HebbianState.init (1/2) 1).fitS [[1, 2]] [1] =
      some ⟨1/2, 1, some [-(1/2), -(1/2), -1], some [1]⟩ := by
    rw [HebbianState.fitS]
    norm_num [HebbianState.init, fit, fitLoop, hebbEpoch, hebbStep, predict,
      net_input, npDot, List.replicate]
  have h := untrained_errors_trained_succeeds (HebbianState.init (1/2) 1)
    [1, 2] [[1, 2]] [1] ⟨1/2, 1, some [-(1/2), -(1/2), -1], some [1]⟩
  exact ⟨⟨rfl, h.1 rfl⟩, ⟨hfit, h.2 hfit⟩⟩


end Hebb
